import Mathlib

/-!
Shallow embedding of the CleanTrack housekeeping tracker core: the period
filter (src/utils/dateUtils.ts), the dual-tier synchronization service
(src/services/storageService.ts), and the mutation handlers of the
application root component.

Calendar conventions: date strings are canonical ISO `YYYY-MM-DD`; the
JavaScript runtime is modelled with its local time zone equal to UTC, so
`getDate`, `getDay`, `getMonth`, `getFullYear` read the civil components of
the parsed string directly.  Non-ISO date strings (which some JavaScript
engines would still parse through the implementation-defined fallback) are
treated as invalid dates.
-/

namespace CleanTrack

/-- Lexicographic (code-unit) `<` on character lists, exactly how JavaScript
compares strings with the relational operators. -/
def listLtB : List Char → List Char → Bool
  | [], [] => false
  | [], _ :: _ => true
  | _ :: _, [] => false
  | a :: asl, b :: bsl => decide (a < b) || (a == b && listLtB asl bsl)

/-- JavaScript string comparison `s < t`. -/
def strLtB (s t : String) : Bool :=
  listLtB s.data t.data

/-- Gregorian leap-year test. -/
def isLeap (y : Int) : Bool :=
  y % 4 == 0 && (y % 100 != 0 || y % 400 == 0)

/-- Number of days in month `m` (1..12) of year `y`. -/
def daysInMonth (y : Int) (m : Nat) : Nat :=
  if m == 2 then (if isLeap y then 29 else 28)
  else if m == 4 || m == 6 || m == 9 || m == 11 then 30
  else 31

/-- Numeric value of a decimal digit character. -/
def digitVal (c : Char) : Nat :=
  c.toNat - 48

/-- Value of a list of decimal digit characters, most significant first. -/
def digitsVal (cs : List Char) : Nat :=
  cs.foldl (fun a c => a * 10 + digitVal c) 0

/-- Parse a canonical ISO `YYYY-MM-DD` date string, as `new Date(s)` followed
by `getFullYear` / `getMonth` / `getDate` does for this format (with local
time = UTC).  Out-of-range components make the date invalid, as in the
engines (`"2024-02-30"` is an invalid date). -/
def parseDate (s : String) : Option (Int × Nat × Nat) :=
  match s.data with
  | [y1, y2, y3, y4, h1, m1, m2, h2, e1, e2] =>
    if h1 == '-' && h2 == '-' && ([y1, y2, y3, y4, m1, m2, e1, e2].all Char.isDigit) then
      let y := digitsVal [y1, y2, y3, y4]
      let m := digitsVal [m1, m2]
      let d := digitsVal [e1, e2]
      if 1 ≤ m && m ≤ 12 && 1 ≤ d && d ≤ daysInMonth (y : Int) m then
        some ((y : Int), m, d)
      else none
    else none
  | _ => none

/-- Two-digit zero-padded rendering, as `toISOString` prints months/days. -/
def pad2 (n : Nat) : String :=
  if n < 10 then "0" ++ toString n else toString n

/-- The decimal digit character for `n % 10`. -/
def digitChar (n : Nat) : Char :=
  Char.ofNat (48 + n % 10)

/-- Four-digit zero-padded year rendering by direct digit extraction, as
`toISOString` prints years in the range 0..9999.  (Years outside 0..9999
use the expanded `±YYYYYY` formats in the engines and are outside the
modelled range; both the model and an engine produce, for such a year, a
string that sorts below every canonical date string, which is the only
fact the development relies on there.) -/
def pad4 (n : Int) : String :=
  let v := n.toNat
  ⟨[digitChar (v / 1000), digitChar (v / 100), digitChar (v / 10), digitChar v]⟩

/-- The `YYYY-MM-DD` part of `toISOString` for the civil date `(y, m, d)`. -/
def renderDate (y : Int) (m d : Nat) : String :=
  pad4 y ++ "-" ++ pad2 m ++ "-" ++ pad2 d

/-- Days since 1970-01-01 of the civil date `(y, m, d)` in the proleptic
Gregorian calendar (the standard era/day-of-era conversion). -/
def daysFromCivil (y : Int) (m d : Nat) : Int :=
  let yy := if m ≤ 2 then y - 1 else y
  let era := Int.fdiv yy 400
  let yoe := yy - era * 400
  let mp : Int := (m : Int) + (if 2 < m then -3 else 9)
  let doy := (153 * mp + 2) / 5 + (d : Int) - 1
  let doe := yoe * 365 + yoe / 4 - yoe / 100 + doy
  era * 146097 + doe - 719468

/-- JavaScript `getDay()`: 0 = Sunday, ..., 6 = Saturday
(1970-01-01 was a Thursday, day index 4). -/
def dayOfWeekYMD (y : Int) (m d : Nat) : Nat :=
  ((daysFromCivil y m d + 4) % 7).toNat

/-- Day-of-week of a canonical date string, `none` on an invalid date. -/
def dayOfWeekOfStr (s : String) : Option Nat :=
  (parseDate s).map fun p => dayOfWeekYMD p.1 p.2.1 p.2.2

/-- Month normalisation of JavaScript `Date.prototype.setDate`: a day number
below 1 borrows from earlier months, one above the month length carries into
later months.  The fuel strictly bounds the number of month steps;
`n.natAbs + 2` always suffices because every step moves `n` by at least 28
towards the terminal range, so the fuel-exhausted branch is unreachable. -/
def normDateAux : Nat → Int → Nat → Int → Int × Nat × Nat
  | 0, y, m, n => (y, m, n.toNat)
  | fuel + 1, y, m, n =>
    if n ≤ 0 then
      let y2 := if m == 1 then y - 1 else y
      let m2 := if m == 1 then 12 else m - 1
      normDateAux fuel y2 m2 (n + (daysInMonth y2 m2 : Int))
    else if (daysInMonth y m : Int) < n then
      let y2 := if m == 12 then y + 1 else y
      let m2 := if m == 12 then 1 else m + 1
      normDateAux fuel y2 m2 (n - (daysInMonth y m : Int))
    else (y, m, n.toNat)

/-- `setDate n` applied to a date currently in year `y`, month `m`. -/
def normDate (y : Int) (m : Nat) (n : Int) : Int × Nat × Nat :=
  normDateAux (n.natAbs + 2) y m n

/-- Body of `getWeekRange` on a successfully parsed reference date,
including the source mutation of `curr`: the week end is computed by
`setDate` relative to the month the week START landed in, not relative to
the reference date. -/
def weekRangeYMD (y : Int) (m d : Nat) : String × String :=
  let dow := dayOfWeekYMD y m d
  let first : Int := (d : Int) - (dow : Int)
  let last : Int := first + 6
  let fd := normDate y m first
  let ld := normDate fd.1 fd.2.1 last
  (renderDate fd.1 fd.2.1 fd.2.2, renderDate ld.1 ld.2.1 ld.2.2)

/-- Embeds `getWeekRange` from src/utils/dateUtils.ts.  On an unparsable
reference date the source would throw (`toISOString` on an invalid date);
that is modelled by a sentinel pair. -/
def getWeekRange (s : String) : String × String :=
  match parseDate s with
  | none => ("Invalid Date", "Invalid Date")
  | some (y, m, d) => weekRangeYMD y m d

/-- The five period keywords of `FilterPeriod` in src/types.ts. -/
inductive FilterPeriod
  | daily
  | weekly
  | monthly
  | yearly
  | all
  deriving DecidableEq, Repr

/-- Task record of src/types.ts.  `status` carries the enum string values
("Pending", "In Progress", "Completed", "Inspected"); the remote rows are
cast to it unchecked in the source, so it is kept as a plain string. -/
structure HousekeepingTask where
  id : String
  date : String
  area : String
  category : Option String
  jobDescription : String
  assignee : String
  status : String
  remarks : String
  photoBefore : Option String := none
  photoProgress : Option String := none
  photoAfter : Option String := none
  deriving DecidableEq, Repr

/-- Area record of src/types.ts. -/
structure AreaItem where
  name : String
  category : String
  deriving DecidableEq, Repr

/-- Embeds `filterTasks` from src/utils/dateUtils.ts. -/
def filterTasks (tasks : List HousekeepingTask) (period : FilterPeriod)
    (refDate : String) : List HousekeepingTask :=
  if period = .all then tasks
  else
    tasks.filter fun task =>
      match period with
      | .daily => task.date == refDate
      | .weekly =>
        let r := getWeekRange refDate
        !(strLtB task.date r.1) && !(strLtB r.2 task.date)
      | .monthly =>
        match parseDate task.date, parseDate refDate with
        | some (ty, tm, _), some (ry, rm, _) => tm == rm && ty == ry
        | _, _ => false
      | .yearly =>
        match parseDate task.date, parseDate refDate with
        | some (ty, _, _), some (ry, _, _) => ty == ry
        | _, _ => false
      | .all => true

/-- Wire row of the remote `tasks` table (snake_case column names). -/
structure TaskRow where
  id : String
  date : String
  area : String
  category : Option String
  job_description : String
  assignee : String
  status : String
  remarks : String
  photo_before : Option String := none
  photo_progress : Option String := none
  photo_after : Option String := none
  deriving DecidableEq, Repr

/-- The field-name translation `fetchTasks` applies to each remote row. -/
def mapRow (t : TaskRow) : HousekeepingTask :=
  { id := t.id, date := t.date, area := t.area, category := t.category,
    jobDescription := t.job_description, assignee := t.assignee,
    status := t.status, remarks := t.remarks,
    photoBefore := t.photo_before, photoProgress := t.photo_progress,
    photoAfter := t.photo_after }

/-- A localStorage slot as the service observes it: missing key, a snapshot
that deserializes to a value, or a snapshot on which `JSON.parse` throws. -/
inductive CacheSlot (α : Type)
  | absent
  | good (val : α)
  | corrupt
  deriving DecidableEq, Repr

/-- The built-in seed task collection of src/services/storageService.ts.
`today` stands for `new Date().toISOString().split('T')[0]` at module
initialisation. -/
def INITIAL_TASKS (today : String) : List HousekeepingTask :=
  [{ id := "1", date := today, area := "Lobby", category := some "Indoor",
     jobDescription := "Vacuum Carpet", assignee := "Budi",
     status := "Completed", remarks := "Done deeply",
     photoBefore := some "", photoProgress := some "",
     photoAfter := some "" }]

/-- The built-in seed area collection of src/services/storageService.ts. -/
def INITIAL_AREAS : List AreaItem :=
  [{ name := "Lobby", category := "Indoor" },
   { name := "Restrooms", category := "Indoor" },
   { name := "Corridors", category := "Indoor" },
   { name := "Pool Area", category := "Outdoor" },
   { name := "Gym", category := "Facilities" }]

/-- Embeds `storageService.fetchTasks`.  The remote call outcome and the
local cache slot are explicit inputs; the result carries the produced
collection together with the cache slot after the call (a successful
non-empty remote read overwrites the cache snapshot).  `Except.error`
models an exception escaping to the caller: in the source, `JSON.parse` of
a corrupt snapshot throws inside the `catch` block, where nothing catches
it (and the corrupt-snapshot parse inside the `try` lands in that same
`catch`, which parses the snapshot again and throws). -/
def fetchTasks (remote : Except Unit (List TaskRow))
    (cache : CacheSlot (List HousekeepingTask)) (today : String) :
    Except Unit (List HousekeepingTask × CacheSlot (List HousekeepingTask)) :=
  match remote with
  | .ok data =>
    if data.length > 0 then
      let mapped := data.map mapRow
      .ok (mapped, .good mapped)
    else
      match cache with
      | .good ts => .ok (ts, .good ts)
      | .absent => .ok (INITIAL_TASKS today, .absent)
      | .corrupt => .error ()
  | .error _ =>
    match cache with
    | .good ts => .ok (ts, .good ts)
    | .absent => .ok (INITIAL_TASKS today, .absent)
    | .corrupt => .error ()

/-- Embeds `storageService.fetchAreas` (same shape as `fetchTasks`, without
the field-name translation). -/
def fetchAreas (remote : Except Unit (List AreaItem))
    (cache : CacheSlot (List AreaItem)) :
    Except Unit (List AreaItem × CacheSlot (List AreaItem)) :=
  match remote with
  | .ok data =>
    if data.length > 0 then .ok (data, .good data)
    else
      match cache with
      | .good l => .ok (l, .good l)
      | .absent => .ok (INITIAL_AREAS, .absent)
      | .corrupt => .error ()
  | .error _ =>
    match cache with
    | .good l => .ok (l, .good l)
    | .absent => .ok (INITIAL_AREAS, .absent)
    | .corrupt => .error ()

/-- Embeds `storageService.upsertTask`: the remote call may fail, but the
`catch` only logs, so the wrapper returns normally whatever the remote
outcome was. -/
def upsertTask (remote : Except Unit Unit) : Except Unit Unit :=
  match remote with
  | .ok _ => .ok ()
  | .error _ => .ok ()

/-- Embeds `storageService.deleteTask`: remote failure is swallowed. -/
def deleteTask (remote : Except Unit Unit) : Except Unit Unit :=
  match remote with
  | .ok _ => .ok ()
  | .error _ => .ok ()

/-- The in-memory update of `handleAddTask` in the application root:
edit mode replaces every entry carrying the matching id, add mode prepends
unconditionally. -/
def upsertLocalTask (editing : Bool) (newTask : HousekeepingTask)
    (tasks : List HousekeepingTask) : List HousekeepingTask :=
  if editing then tasks.map fun t => if t.id == newTask.id then newTask else t
  else newTask :: tasks

/-- Embeds `handleAddTask`: local update first, then remote propagation via
`upsertTask`; an error would reach the caller only if `upsertTask` returned
one (it never does, its `catch` swallows the failure). -/
def handleAddTask (editing : Bool) (newTask : HousekeepingTask)
    (tasks : List HousekeepingTask) (remote : Except Unit Unit) :
    Except Unit (List HousekeepingTask) :=
  let tasks2 := upsertLocalTask editing newTask tasks
  match upsertTask remote with
  | .ok _ => .ok tasks2
  | .error e => .error e

/-- Embeds `handleDelete`; the outcome of the `confirm` dialog is an
input. -/
def handleDelete (confirmed : Bool) (id : String)
    (tasks : List HousekeepingTask) (remote : Except Unit Unit) :
    Except Unit (List HousekeepingTask) :=
  if confirmed then
    let tasks2 := tasks.filter fun t => !(t.id == id)
    match deleteTask remote with
    | .ok _ => .ok tasks2
    | .error e => .error e
  else .ok tasks

/-- Embeds the local update of `handleAddArea`: append only when no
existing area already carries the name. -/
def handleAddArea (area : AreaItem) (areas : List AreaItem) : List AreaItem :=
  if (areas.find? fun a => a.name == area.name).isSome then areas
  else areas ++ [area]

/-- Embeds the local updates of `handleEditArea`: a rename to a name already
used by another area is rejected before any change; otherwise the area entry
is replaced and every task carrying the old area name is rewritten to the
new name and category in the same synchronous step. -/
def handleEditArea (oldName : String) (newArea : AreaItem)
    (areas : List AreaItem) (tasks : List HousekeepingTask) :
    List AreaItem × List HousekeepingTask :=
  if oldName != newArea.name && (areas.find? fun a => a.name == newArea.name).isSome then
    (areas, tasks)
  else
    (areas.map fun a => if a.name == oldName then newArea else a,
     tasks.map fun t =>
       if t.area == oldName then
         { t with area := newArea.name, category := some newArea.category }
       else t)

/-- A concrete task dated `d`, used in concrete instances below. -/
def taskOn (d : String) : HousekeepingTask :=
  { id := "T" ++ d, date := d, area := "Lobby", category := some "Indoor",
    jobDescription := "Vacuum Carpet", assignee := "Budi", status := "Pending",
    remarks := "" }

/-! Helper lemmas about the string rendering and comparison model. -/

theorem listLtB_append_same (p a b : List Char) :
    listLtB (p ++ a) (p ++ b) = listLtB a b := by
  induction p with
  | nil => rfl
  | cons c cs ih => simp [listLtB, ih, lt_irrefl]

theorem listLtB_append_of_ne (xs : List Char) (u v : List Char) :
    ∀ ys : List Char, xs.length = ys.length → listLtB xs ys = false → xs ≠ ys →
      listLtB (xs ++ u) (ys ++ v) = false := by
  induction xs with
  | nil =>
    intro ys hlen _ hne
    cases ys with
    | nil => exact absurd rfl hne
    | cons b bs => simp at hlen
  | cons a asl ih =>
    intro ys hlen hlt hne
    cases ys with
    | nil => simp at hlen
    | cons b bs =>
      simp only [listLtB, Bool.or_eq_false_iff, Bool.and_eq_false_iff] at hlt
      obtain ⟨hab, hrest⟩ := hlt
      simp only [List.cons_append, listLtB, Bool.or_eq_false_iff,
        Bool.and_eq_false_iff, hab, true_and]
      rcases hrest with hne2 | hlt2
      · exact Or.inl hne2
      · by_cases hb : a == b
        · right
          have hab2 : a = b := by simpa using hb
          have : asl ≠ bs := by
            intro h
            exact hne (by rw [hab2, h])
          exact ih bs (by simpa using hlen) hlt2 this
        · exact Or.inl (by simpa using hb)

theorem pad2_not_lt : ∀ a b : Fin 38, a.val ≤ b.val →
    listLtB (pad2 b.val).data (pad2 a.val).data = false := by decide

theorem pad2_len : ∀ a : Fin 38, (pad2 a.val).data.length = 2 := by decide

theorem pad2_succ_ne : ∀ a : Fin 37, (pad2 (a.val + 1)).data ≠ (pad2 a.val).data := by
  decide

theorem pad2_not_lt2 (a b : Nat) (ha : a ≤ b) (hb : b ≤ 37) :
    listLtB (pad2 b).data (pad2 a).data = false :=
  pad2_not_lt ⟨a, by omega⟩ ⟨b, by omega⟩ ha

theorem pad2_len2 (a : Nat) (ha : a ≤ 37) : (pad2 a).data.length = 2 :=
  pad2_len ⟨a, by omega⟩

theorem pad2_succ_ne2 (a : Nat) (ha : a ≤ 36) :
    (pad2 (a + 1)).data ≠ (pad2 a).data :=
  pad2_succ_ne ⟨a, by omega⟩

theorem digitChar_mod (a : Nat) : digitChar a = digitChar (a % 10) := by
  unfold digitChar
  congr 1
  omega

theorem digitChar_lt10 : ∀ a b : Fin 10,
    decide (digitChar a.val < digitChar b.val) = decide (a.val < b.val) := by
  decide

theorem digitChar_beq10 : ∀ a b : Fin 10,
    (digitChar a.val == digitChar b.val) = decide (a.val = b.val) := by
  decide

theorem digitChar_inj10 : ∀ a b : Fin 10,
    (digitChar a.val = digitChar b.val) ↔ a.val = b.val := by
  decide

theorem digitChar_decide_lt (a b : Nat) :
    decide (digitChar a < digitChar b) = decide (a % 10 < b % 10) := by
  rw [digitChar_mod a, digitChar_mod b]
  exact digitChar_lt10 ⟨a % 10, by omega⟩ ⟨b % 10, by omega⟩

theorem digitChar_beq (a b : Nat) :
    (digitChar a == digitChar b) = decide (a % 10 = b % 10) := by
  rw [digitChar_mod a, digitChar_mod b]
  exact digitChar_beq10 ⟨a % 10, by omega⟩ ⟨b % 10, by omega⟩

theorem digitChar_inj (a b : Nat) :
    digitChar a = digitChar b ↔ a % 10 = b % 10 := by
  rw [digitChar_mod a, digitChar_mod b]
  exact digitChar_inj10 ⟨a % 10, by omega⟩ ⟨b % 10, by omega⟩

theorem pad4_len (n : Int) : (pad4 n).data.length = 4 := rfl

theorem pad4_lt_eq (v w : Nat) (hv : v ≤ 9999) (hw : w ≤ 9999) :
    listLtB (pad4 (v : Int)).data (pad4 (w : Int)).data = decide (v < w) ∧
    ((pad4 (v : Int)).data = (pad4 (w : Int)).data ↔ v = w) := by
  constructor
  · show listLtB
      [digitChar (v / 1000), digitChar (v / 100), digitChar (v / 10), digitChar v]
      [digitChar (w / 1000), digitChar (w / 100), digitChar (w / 10), digitChar w]
      = decide (v < w)
    simp only [listLtB, digitChar_decide_lt, digitChar_beq, Bool.and_false,
      Bool.or_false]
    simp only [← Bool.decide_and, ← Bool.decide_or]
    rw [decide_eq_decide]
    have h1 : v / 1000 % 10 = v / 1000 := by omega
    have h2 : w / 1000 % 10 = w / 1000 := by omega
    have dv : v = 1000 * (v / 1000) + 100 * (v / 100 % 10) +
        10 * (v / 10 % 10) + v % 10 := by omega
    have dw : w = 1000 * (w / 1000) + 100 * (w / 100 % 10) +
        10 * (w / 10 % 10) + w % 10 := by omega
    omega
  · show ([digitChar (v / 1000), digitChar (v / 100), digitChar (v / 10), digitChar v]
      = [digitChar (w / 1000), digitChar (w / 100), digitChar (w / 10), digitChar w])
      ↔ v = w
    simp only [List.cons.injEq, and_true, digitChar_inj]
    have h1 : v / 1000 % 10 = v / 1000 := by omega
    have h2 : w / 1000 % 10 = w / 1000 := by omega
    have dv : v = 1000 * (v / 1000) + 100 * (v / 100 % 10) +
        10 * (v / 10 % 10) + v % 10 := by omega
    have dw : w = 1000 * (w / 1000) + 100 * (w / 100 % 10) +
        10 * (w / 10 % 10) + w % 10 := by omega
    omega

theorem daysInMonth_le_31 (y : Int) (m : Nat) : daysInMonth y m ≤ 31 := by
  unfold daysInMonth
  split
  · split <;> omega
  · split <;> omega

theorem daysInMonth_ge_28 (y : Int) (m : Nat) : 28 ≤ daysInMonth y m := by
  unfold daysInMonth
  split
  · split <;> omega
  · split <;> omega

theorem dayOfWeekYMD_lt_7 (y : Int) (m d : Nat) : dayOfWeekYMD y m d < 7 := by
  unfold dayOfWeekYMD
  omega

theorem normDateAux_term (fuel : Nat) (y : Int) (m : Nat) (n : Int)
    (h1 : 0 < n) (h2 : n ≤ (daysInMonth y m : Int)) :
    normDateAux (fuel + 1) y m n = (y, m, n.toNat) := by
  unfold normDateAux
  rw [if_neg (by omega), if_neg (by omega)]

theorem normDate_id (y : Int) (m : Nat) (n : Int)
    (h1 : 0 < n) (h2 : n ≤ (daysInMonth y m : Int)) :
    normDate y m n = (y, m, n.toNat) := by
  rw [normDate, show n.natAbs + 2 = (n.natAbs + 1) + 1 from rfl,
    normDateAux_term _ _ _ _ h1 h2]

theorem normDateAux_succ (fuel : Nat) (y : Int) (m : Nat) (n : Int) :
    normDateAux (fuel + 1) y m n =
      if n ≤ 0 then
        normDateAux fuel (if m == 1 then y - 1 else y) (if m == 1 then 12 else m - 1)
          (n + (daysInMonth (if m == 1 then y - 1 else y)
                  (if m == 1 then 12 else m - 1) : Int))
      else if (daysInMonth y m : Int) < n then
        normDateAux fuel (if m == 12 then y + 1 else y) (if m == 12 then 1 else m + 1)
          (n - (daysInMonth y m : Int))
      else (y, m, n.toNat) := rfl

theorem normDate_over_month (y : Int) (m : Nat) (n : Int)
    (hm : (m == 12) = false)
    (h1 : (daysInMonth y m : Int) < n)
    (h2 : n - daysInMonth y m ≤ (daysInMonth y (m + 1) : Int)) :
    normDate y m n = (y, m + 1, (n - daysInMonth y m).toNat) := by
  have hd28 := daysInMonth_ge_28 y m
  rw [normDate, show n.natAbs + 2 = (n.natAbs + 1) + 1 from rfl, normDateAux_succ,
    if_neg (by omega), if_pos h1]
  simp only [hm]
  rw [if_neg (by simp), if_neg (by simp)]
  exact normDateAux_term _ _ _ _ (by omega) h2

theorem normDate_over_year (y : Int) (n : Int)
    (h1 : 31 < n) (h2 : n ≤ 62) :
    normDate y 12 n = (y + 1, 1, (n - 31).toNat) := by
  rw [normDate, show n.natAbs + 2 = (n.natAbs + 1) + 1 from rfl, normDateAux_succ,
    if_neg (by omega)]
  rw [show daysInMonth y 12 = 31 from rfl]
  rw [if_pos (by exact_mod_cast h1 : (((31 : Nat) : Int)) < n),
    if_pos (show ((12 : Nat) == 12) = true from rfl),
    if_pos (show ((12 : Nat) == 12) = true from rfl)]
  have hterm := normDateAux_term n.natAbs (y + 1) 1 (n - ((31 : Nat) : Int)) (by omega)
    (by rw [show daysInMonth (y + 1) 1 = 31 from rfl]; omega)
  rw [hterm]
  norm_num

theorem dash_data : ("-" : String).data = ['-'] := rfl

theorem renderDate_data_day (y : Int) (m d : Nat) :
    (renderDate y m d).data =
      ((pad4 y).data ++ '-' :: ((pad2 m).data ++ ['-'])) ++ (pad2 d).data := by
  simp [renderDate, String.data_append, dash_data]

theorem renderDate_data_month (y : Int) (m d : Nat) :
    (renderDate y m d).data =
      ((pad4 y).data ++ ['-']) ++ ((pad2 m).data ++ '-' :: (pad2 d).data) := by
  simp [renderDate, String.data_append, dash_data]

theorem renderDate_data_year (y : Int) (m d : Nat) :
    (renderDate y m d).data =
      (pad4 y).data ++ '-' :: ((pad2 m).data ++ '-' :: (pad2 d).data) := by
  simp [renderDate, String.data_append, dash_data]

/-! Evaluation lemmas for the period filter and the week window. -/

theorem filterTasks_daily_eq (tasks : List HousekeepingTask) (R : String) :
    filterTasks tasks .daily R = tasks.filter fun t => t.date == R := rfl

theorem filterTasks_weekly_eq (tasks : List HousekeepingTask) (R : String) :
    filterTasks tasks .weekly R = tasks.filter fun t =>
      !(strLtB t.date (getWeekRange R).1) && !(strLtB (getWeekRange R).2 t.date) := rfl

theorem filterTasks_monthly_eq (tasks : List HousekeepingTask) (R : String) :
    filterTasks tasks .monthly R = tasks.filter fun t =>
      match parseDate t.date, parseDate R with
      | some (ty, tm, _), some (ry, rm, _) => tm == rm && ty == ry
      | _, _ => false := rfl

theorem filterTasks_yearly_eq (tasks : List HousekeepingTask) (R : String) :
    filterTasks tasks .yearly R = tasks.filter fun t =>
      match parseDate t.date, parseDate R with
      | some (ty, _, _), some (ry, _, _) => ty == ry
      | _, _ => false := rfl

theorem filterTasks_all_eq (tasks : List HousekeepingTask) (R : String) :
    filterTasks tasks .all R = tasks := rfl

theorem weekRangeYMD_inMonth (y : Int) (m d : Nat)
    (hdow : dayOfWeekYMD y m d < d)
    (hin : d - dayOfWeekYMD y m d + 6 ≤ daysInMonth y m) :
    weekRangeYMD y m d =
      (renderDate y m (d - dayOfWeekYMD y m d),
       renderDate y m (d - dayOfWeekYMD y m d + 6)) := by
  simp only [weekRangeYMD]
  have h1 : (d : Int) - (dayOfWeekYMD y m d : Int) =
      ((d - dayOfWeekYMD y m d : Nat) : Int) := by omega
  rw [h1, normDate_id _ _ _ (by omega) (by omega)]
  simp only [Int.toNat_natCast]
  have h3 : ((d - dayOfWeekYMD y m d : Nat) : Int) + 6 =
      ((d - dayOfWeekYMD y m d + 6 : Nat) : Int) := by omega
  rw [h3, normDate_id _ _ _ (by omega) (by omega)]
  simp only [Int.toNat_natCast]

theorem weekRangeYMD_nextMonth (y : Int) (m d : Nat)
    (hdow : dayOfWeekYMD y m d < d)
    (hdm : d ≤ daysInMonth y m)
    (hm12 : (m == 12) = false)
    (hover : daysInMonth y m < d - dayOfWeekYMD y m d + 6) :
    weekRangeYMD y m d =
      (renderDate y m (d - dayOfWeekYMD y m d),
       renderDate y (m + 1) (d - dayOfWeekYMD y m d + 6 - daysInMonth y m)) := by
  have h28 := daysInMonth_ge_28 y (m + 1)
  simp only [weekRangeYMD]
  have h1 : (d : Int) - (dayOfWeekYMD y m d : Int) =
      ((d - dayOfWeekYMD y m d : Nat) : Int) := by omega
  rw [h1, normDate_id _ _ _ (by omega) (by omega)]
  simp only [Int.toNat_natCast]
  have h3 : ((d - dayOfWeekYMD y m d : Nat) : Int) + 6 =
      ((d - dayOfWeekYMD y m d + 6 : Nat) : Int) := by omega
  rw [h3, normDate_over_month _ _ _ hm12 (by omega) (by omega)]
  have h4 : (((d - dayOfWeekYMD y m d + 6 : Nat) : Int) -
      (daysInMonth y m : Int)).toNat =
      d - dayOfWeekYMD y m d + 6 - daysInMonth y m := by omega
  rw [h4]

theorem weekRangeYMD_nextYear (y : Int) (d : Nat)
    (hdow : dayOfWeekYMD y 12 d < d)
    (hdm : d ≤ 31)
    (hover : 31 < d - dayOfWeekYMD y 12 d + 6) :
    weekRangeYMD y 12 d =
      (renderDate y 12 (d - dayOfWeekYMD y 12 d),
       renderDate (y + 1) 1 (d - dayOfWeekYMD y 12 d + 6 - 31)) := by
  have hd12 : daysInMonth y 12 = 31 := rfl
  simp only [weekRangeYMD]
  have h1 : (d : Int) - (dayOfWeekYMD y 12 d : Int) =
      ((d - dayOfWeekYMD y 12 d : Nat) : Int) := by omega
  rw [h1, normDate_id _ _ _ (by omega) (by omega)]
  simp only [Int.toNat_natCast]
  have h3 : ((d - dayOfWeekYMD y 12 d : Nat) : Int) + 6 =
      ((d - dayOfWeekYMD y 12 d + 6 : Nat) : Int) := by omega
  rw [h3, normDate_over_year _ _ (by omega) (by omega)]
  have h4 : (((d - dayOfWeekYMD y 12 d + 6 : Nat) : Int) - 31).toNat =
      d - dayOfWeekYMD y 12 d + 6 - 31 := by omega
  rw [h4]

/-! Claim theorems. -/

/-- C2: refuted by the code, the claim states the evident intent.  At the
reference date 2024-03-02 (a Saturday) the weekly window is not a 7-day
Sunday-to-Saturday span: `getWeekRange` returns start 2024-02-25 (the
correct most recent Sunday) but end 2024-02-02, a Friday lying BEFORE the
start, because the second `setDate` call runs on the date object already
mutated into February.  The intended end would be 2024-03-02 itself. -/
theorem getWeekRange_monthSlip_bug :
    getWeekRange "2024-03-02" = ("2024-02-25", "2024-02-02") ∧
    dayOfWeekOfStr "2024-03-02" = some 6 ∧
    dayOfWeekOfStr "2024-02-25" = some 0 ∧
    dayOfWeekOfStr "2024-02-02" = some 5 ∧
    strLtB "2024-02-02" "2024-02-25" = true := by
  decide

/-- C4: with an absent local cache and a remote gateway answering with zero
records, `fetchTasks` returns the built-in seed collection, which is not
empty. -/
theorem fetchTasks_empty_remote_seeds (today : String) :
    fetchTasks (Except.ok []) CacheSlot.absent today =
      Except.ok (INITIAL_TASKS today, CacheSlot.absent) ∧
    INITIAL_TASKS today ≠ [] :=
  ⟨rfl, by simp [INITIAL_TASKS]⟩

/-- C6: for every upsert and every confirmed delete, the result is the local
mutation wrapped in `Except.ok`, for every remote outcome: the remote
propagation can neither revert the local change nor raise to the caller. -/
theorem mutation_optimistic_no_revert (editing : Bool) (nt : HousekeepingTask)
    (tasks : List HousekeepingTask) (r rd : Except Unit Unit) (id : String) :
    handleAddTask editing nt tasks r = Except.ok (upsertLocalTask editing nt tasks) ∧
    handleDelete true id tasks rd = Except.ok (tasks.filter fun x => !(x.id == id)) := by
  cases r <;> cases rd <;> exact ⟨rfl, rfl⟩

/-- C9: for every period keyword and reference date, `filterTasks` returns a
subsequence of its input (every returned task is an element of the input,
none duplicated or synthesized, relative order preserved), and for the
period `all` the output is exactly the input list. -/
theorem filterTasks_sublist (tasks : List HousekeepingTask)
    (p : FilterPeriod) (r : String) :
    List.Sublist (filterTasks tasks p r) tasks ∧
    filterTasks tasks .all r = tasks := by
  refine ⟨?_, rfl⟩
  by_cases h : p = FilterPeriod.all
  · subst h
    simp [filterTasks]
  · simp only [filterTasks, if_neg h]
    exact List.filter_sublist tasks

/-- C10: a confirmed delete removes exactly the entries whose id equals the
key: the result is the filter of the input, a subsequence of it (so every
survivor keeps its fields and its relative position), no survivor carries
the key, and every task with a different id survives. -/
theorem delete_removes_exactly_matching (id : String)
    (tasks : List HousekeepingTask) (rd : Except Unit Unit) :
    handleDelete true id tasks rd = Except.ok (tasks.filter fun x => !(x.id == id)) ∧
    List.Sublist (tasks.filter fun x => !(x.id == id)) tasks ∧
    (∀ t ∈ tasks.filter fun x => !(x.id == id), t.id ≠ id) ∧
    (∀ t ∈ tasks, t.id ≠ id → t ∈ tasks.filter fun x => !(x.id == id)) := by
  refine ⟨?_, List.filter_sublist tasks, ?_, ?_⟩
  · cases rd <;> rfl
  · intro t ht
    have h2 := (List.mem_filter.mp ht).2
    simpa using h2
  · intro t ht hne
    exact List.mem_filter.mpr ⟨ht, by simpa using hne⟩

/-- C1 counterexample: the claimed inclusion chain fails twice on the code.
A task dated 2024-04-01 is in the weekly window of 2024-03-31 (a correctly
computed Sunday-to-Saturday week straddling the month boundary) but not in
the monthly window, so weekly is not contained in monthly; and with the
month-slip of `getWeekRange`, a task dated exactly 2024-03-02 is in the
daily result but not in the weekly one. -/
theorem filterTasks_chain_fails :
    (taskOn "2024-04-01" ∈ filterTasks [taskOn "2024-04-01"] .weekly "2024-03-31" ∧
     taskOn "2024-04-01" ∉ filterTasks [taskOn "2024-04-01"] .monthly "2024-03-31") ∧
    (taskOn "2024-03-02" ∈ filterTasks [taskOn "2024-03-02"] .daily "2024-03-02" ∧
     taskOn "2024-03-02" ∉ filterTasks [taskOn "2024-03-02"] .weekly "2024-03-02") := by
  decide

/-- C3 counterexample: when the cached snapshot is corrupt and the remote
call fails, both loaders raise to the caller (the `JSON.parse` inside the
`catch` block throws with nothing catching it) instead of returning the
seed collection. -/
theorem fetch_corrupt_cache_raises :
    fetchTasks (Except.error ()) CacheSlot.corrupt "2024-01-01" = Except.error () ∧
    fetchAreas (Except.error ()) CacheSlot.corrupt = Except.error () :=
  ⟨rfl, rfl⟩

/-- C5 counterexample: two add-mode upserts of the identical record leave
TWO entries carrying its id, because the add path prepends without checking
id existence. -/
theorem upsert_add_twice_duplicates :
    List.countP (fun t => t.id == (taskOn "2024-03-10").id)
      (upsertLocalTask false (taskOn "2024-03-10")
        (upsertLocalTask false (taskOn "2024-03-10") [])) = 2 := by
  decide

/-- C3 (amended): the loaders never raise while the cached snapshot is
absent or well-formed: on remote failure or an empty remote they return the
cached collection when one is stored, and the built-in seed when the cache
is absent.  (When the cached snapshot is corrupt and the remote fails or
returns empty, the deserialization error instead propagates to the
caller — see the counterexample.) -/
theorem fetch_degrades_to_local (rT : Except Unit (List TaskRow))
    (cT : CacheSlot (List HousekeepingTask))
    (rA : Except Unit (List AreaItem)) (cA : CacheSlot (List AreaItem))
    (today : String)
    (hT : cT ≠ CacheSlot.corrupt) (hA : cA ≠ CacheSlot.corrupt) :
    (∃ v, fetchTasks rT cT today = Except.ok v) ∧
    (∃ w, fetchAreas rA cA = Except.ok w) ∧
    ((rT = Except.error () ∨ rT = Except.ok []) →
      (∀ ts, cT = CacheSlot.good ts →
        fetchTasks rT cT today = Except.ok (ts, CacheSlot.good ts)) ∧
      (cT = CacheSlot.absent →
        fetchTasks rT cT today = Except.ok (INITIAL_TASKS today, CacheSlot.absent))) ∧
    ((rA = Except.error () ∨ rA = Except.ok []) →
      (∀ l, cA = CacheSlot.good l →
        fetchAreas rA cA = Except.ok (l, CacheSlot.good l)) ∧
      (cA = CacheSlot.absent →
        fetchAreas rA cA = Except.ok (INITIAL_AREAS, CacheSlot.absent))) := by
  refine ⟨?_, ?_, ?_, ?_⟩
  · cases rT with
    | error e =>
      cases cT with
      | absent => exact ⟨_, rfl⟩
      | good ts => exact ⟨_, rfl⟩
      | corrupt => exact absurd rfl hT
    | ok data =>
      cases data with
      | nil =>
        cases cT with
        | absent => exact ⟨_, rfl⟩
        | good ts => exact ⟨_, rfl⟩
        | corrupt => exact absurd rfl hT
      | cons hd tl =>
        exact ⟨((hd :: tl).map mapRow, CacheSlot.good ((hd :: tl).map mapRow)),
          by simp [fetchTasks]⟩
  · cases rA with
    | error e =>
      cases cA with
      | absent => exact ⟨_, rfl⟩
      | good l => exact ⟨_, rfl⟩
      | corrupt => exact absurd rfl hA
    | ok data =>
      cases data with
      | nil =>
        cases cA with
        | absent => exact ⟨_, rfl⟩
        | good l => exact ⟨_, rfl⟩
        | corrupt => exact absurd rfl hA
      | cons hd tl =>
        exact ⟨(hd :: tl, CacheSlot.good (hd :: tl)), by simp [fetchAreas]⟩
  · rintro (rfl | rfl) <;>
      exact ⟨fun ts hc => by subst hc; rfl, fun hc => by subst hc; rfl⟩
  · rintro (rfl | rfl) <;>
      exact ⟨fun l hc => by subst hc; rfl, fun hc => by subst hc; rfl⟩

/-- Witness for the amended C3 at concrete inputs. -/
theorem fetch_degrades_to_local_witness :
    (∃ v, fetchTasks (Except.error ()) (CacheSlot.good [taskOn "2024-03-10"])
      "2024-03-10" = Except.ok v) ∧
    fetchTasks (Except.error ()) (CacheSlot.good [taskOn "2024-03-10"]) "2024-03-10" =
      Except.ok ([taskOn "2024-03-10"], CacheSlot.good [taskOn "2024-03-10"]) ∧
    fetchAreas (Except.ok []) CacheSlot.absent =
      Except.ok (INITIAL_AREAS, CacheSlot.absent) := by
  have h := fetch_degrades_to_local (Except.error ()) (CacheSlot.good [taskOn "2024-03-10"])
    (Except.ok []) CacheSlot.absent "2024-03-10" (by decide) (by decide)
  exact ⟨h.1, (h.2.2.1 (Or.inl rfl)).1 _ rfl, (h.2.2.2 (Or.inr rfl)).2 rfl⟩

theorem countP_upsertEdit (t : HousekeepingTask) (ts : List HousekeepingTask) :
    List.countP (fun x => x.id == t.id) (upsertLocalTask true t ts) =
      List.countP (fun x => x.id == t.id) ts := by
  rw [upsertLocalTask, if_pos rfl, List.countP_map]
  apply List.countP_congr
  intro a _
  by_cases h : a.id = t.id <;> simp [h]

theorem upsertEdit_mem (t : HousekeepingTask) (ts : List HousekeepingTask) :
    ∀ x ∈ upsertLocalTask true t ts, x.id = t.id → x = t := by
  intro x hx hid
  rw [upsertLocalTask, if_pos rfl] at hx
  obtain ⟨a, ha, hfa⟩ := List.mem_map.mp hx
  by_cases h : a.id = t.id
  · rw [if_pos (beq_iff_eq.mpr h)] at hfa
    exact hfa.symm
  · rw [if_neg (fun hc => h (beq_iff_eq.mp hc))] at hfa
    subst hfa
    exact absurd hid h

theorem upsertEdit_idem (t : HousekeepingTask) (ts : List HousekeepingTask) :
    upsertLocalTask true t (upsertLocalTask true t ts) = upsertLocalTask true t ts := by
  rw [upsertLocalTask, upsertLocalTask, if_pos rfl, if_pos rfl, List.map_map]
  apply List.map_congr_left
  intro a _
  by_cases h : a.id = t.id <;> simp [h]

/-- C5 (amended): an edit-mode upsert is idempotent, and starting from a
collection carrying the id exactly once, calling it twice with an identical
record leaves exactly one entry with that id, whose fields equal the
record.  (Two ADD-mode calls instead leave two entries with the id — see
the counterexample.) -/
theorem upsert_twice_single_entry (t : HousekeepingTask)
    (ts : List HousekeepingTask)
    (h : List.countP (fun x => x.id == t.id) ts = 1) :
    upsertLocalTask true t (upsertLocalTask true t ts) = upsertLocalTask true t ts ∧
    List.countP (fun x => x.id == t.id)
      (upsertLocalTask true t (upsertLocalTask true t ts)) = 1 ∧
    (∀ x ∈ upsertLocalTask true t (upsertLocalTask true t ts),
      x.id = t.id → x = t) := by
  refine ⟨upsertEdit_idem t ts, ?_, ?_⟩
  · rw [countP_upsertEdit, countP_upsertEdit, h]
  · intro x hx hid
    exact upsertEdit_mem t _ x hx hid

/-- Witness for the amended C5 at concrete inputs. -/
theorem upsert_twice_single_entry_witness :
    List.countP (fun x => x.id == (taskOn "2024-03-10").id)
      [taskOn "2024-03-10"] = 1 ∧
    List.countP (fun x => x.id == (taskOn "2024-03-10").id)
      (upsertLocalTask true (taskOn "2024-03-10")
        (upsertLocalTask true (taskOn "2024-03-10") [taskOn "2024-03-10"])) = 1 :=
  ⟨by decide,
   (upsert_twice_single_entry (taskOn "2024-03-10") [taskOn "2024-03-10"]
     (by decide)).2.1⟩

/-- C7: when the duplicate-name guard accepts the rename, `handleEditArea`
rewrites, in the same synchronous step, exactly the tasks whose area equals
the old name to the new name and new category (in place, preserving length
and positions), leaves every other task unchanged, and afterwards no task
carries the old area name (whenever the rename actually changes the name). -/
theorem area_rename_cascade (oldName : String) (na : AreaItem)
    (areas : List AreaItem) (tasks : List HousekeepingTask)
    (hguard : (oldName != na.name &&
      (areas.find? fun a => a.name == na.name).isSome) = false) :
    ((handleEditArea oldName na areas tasks).2).length = tasks.length ∧
    (∀ (i : Nat) (t : HousekeepingTask), tasks[i]? = some t →
      (t.area = oldName → (handleEditArea oldName na areas tasks).2[i]? =
        some { t with area := na.name, category := some na.category }) ∧
      (t.area ≠ oldName → (handleEditArea oldName na areas tasks).2[i]? = some t)) ∧
    (oldName ≠ na.name →
      ∀ t ∈ (handleEditArea oldName na areas tasks).2, t.area ≠ oldName) := by
  rw [handleEditArea, if_neg (by simp [hguard])]
  refine ⟨by simp, ?_, ?_⟩
  · intro i t ht
    constructor
    · intro harea
      simp only [List.getElem?_map, ht, Option.map_some']
      rw [if_pos (beq_iff_eq.mpr harea)]
    · intro harea
      simp only [List.getElem?_map, ht, Option.map_some']
      rw [if_neg (fun hc => harea (beq_iff_eq.mp hc))]
  · intro hne t htm
    obtain ⟨a, ha, hfa⟩ := List.mem_map.mp htm
    by_cases h : a.area = oldName
    · rw [if_pos (beq_iff_eq.mpr h)] at hfa
      subst hfa
      simpa using fun hh => hne hh.symm
    · rw [if_neg (fun hc => h (beq_iff_eq.mp hc))] at hfa
      subst hfa
      exact h

/-- Witness for C7 at concrete inputs: renaming Lobby (Indoor) to
Main Lobby (Public). -/
theorem area_rename_cascade_witness :
    ((handleEditArea "Lobby" { name := "Main Lobby", category := "Public" }
        INITIAL_AREAS [taskOn "2024-03-10"]).2).length = 1 ∧
    (∀ t ∈ (handleEditArea "Lobby" { name := "Main Lobby", category := "Public" }
        INITIAL_AREAS [taskOn "2024-03-10"]).2, t.area ≠ "Lobby") := by
  have h := area_rename_cascade "Lobby" { name := "Main Lobby", category := "Public" }
    INITIAL_AREAS [taskOn "2024-03-10"] (by decide)
  exact ⟨h.1, h.2.2 (by decide)⟩

theorem nodup_map_rename (old nw : String) (l : List String)
    (hnd : l.Nodup) (hnew : nw ∉ l) :
    (l.map fun n => if n = old then nw else n).Nodup := by
  induction l with
  | nil => simp
  | cons n rest ih =>
    rw [List.nodup_cons] at hnd
    have hnew2 : nw ∉ rest := fun hh => hnew (List.mem_cons_of_mem _ hh)
    have hnewn : nw ≠ n := fun hh => hnew (hh ▸ List.mem_cons_self _ _)
    rw [List.map_cons, List.nodup_cons]
    refine ⟨?_, ih hnd.2 hnew2⟩
    intro hmem
    obtain ⟨r, hr, heq⟩ := List.mem_map.mp hmem
    by_cases h1 : n = old <;> by_cases h2 : r = old
    · exact hnd.1 ((h2.trans h1.symm) ▸ hr)
    · rw [if_neg h2, if_pos h1] at heq
      exact hnew2 (heq ▸ hr)
    · rw [if_pos h2, if_neg h1] at heq
      exact hnewn heq
    · rw [if_neg h2, if_neg h1] at heq
      exact hnd.1 (heq ▸ hr)

theorem find?_name_none_notMem (nm : String) (areas : List AreaItem)
    (h : (areas.find? fun a => a.name == nm).isSome = false) :
    nm ∉ areas.map fun a => a.name := by
  intro hmem
  obtain ⟨a, ha, heq⟩ := List.mem_map.mp hmem
  cases hf : areas.find? fun a => a.name == nm with
  | some v => rw [hf] at h; simp at h
  | none =>
    have := List.find?_eq_none.mp hf a ha
    exact this (beq_iff_eq.mpr heq)

/-- C8: pairwise-distinct area names are an invariant of the in-memory area
collection: both `handleAddArea` and the area update of `handleEditArea`
preserve `Nodup` of the name list, because an insertion of an existing name
or a rename onto a name used by another area is rejected before the
collection is modified. -/
theorem area_names_unique (area : AreaItem) (oldName : String) (na : AreaItem)
    (areas : List AreaItem) (tasks : List HousekeepingTask)
    (hnd : (areas.map fun a => a.name).Nodup) :
    ((handleAddArea area areas).map fun a => a.name).Nodup ∧
    (((handleEditArea oldName na areas tasks).1).map fun a => a.name).Nodup := by
  constructor
  · rw [handleAddArea]
    by_cases h : (areas.find? fun a => a.name == area.name).isSome
    · rw [if_pos h]
      exact hnd
    · rw [if_neg h]
      have hnotin := find?_name_none_notMem area.name areas (by simpa using h)
      rw [List.map_append]
      simp [List.nodup_append, hnd, hnotin]
  · rw [handleEditArea]
    by_cases hg : (oldName != na.name &&
        (areas.find? fun a => a.name == na.name).isSome) = true
    · rw [if_pos hg]
      exact hnd
    · rw [if_neg hg]
      simp only [List.map_map]
      by_cases hcase : oldName = na.name
      · have : ((fun a => a.name) ∘ fun a : AreaItem =>
            if a.name == oldName then na else a) =
            fun a : AreaItem => if a.name = oldName then na.name else a.name := by
          funext a
          by_cases hb : a.name = oldName
          · simp [hb]
          · simp [hb]
        rw [this]
        have h2 : (areas.map fun a : AreaItem =>
            if a.name = oldName then na.name else a.name) =
            areas.map fun a => a.name := by
          apply List.map_congr_left
          intro a _
          by_cases hb : a.name = oldName
          · rw [if_pos hb, hb, hcase]
          · rw [if_neg hb]
        rw [h2]
        exact hnd
      · have hbne : (oldName != na.name) = true := bne_iff_ne.mpr hcase
        have hsome : (areas.find? fun a => a.name == na.name).isSome = false := by
          cases hiso : (areas.find? fun a => a.name == na.name).isSome
          · rfl
          · exact absurd (by rw [hbne, hiso]; rfl) hg
        have hnotin := find?_name_none_notMem na.name areas hsome
        have : ((fun a => a.name) ∘ fun a : AreaItem =>
            if a.name == oldName then na else a) =
            (fun n => if n = oldName then na.name else n) ∘
              fun a : AreaItem => a.name := by
          funext a
          by_cases hb : a.name = oldName
          · simp [hb]
          · simp [hb]
        rw [this, ← List.map_map]
        exact nodup_map_rename oldName na.name _ hnd hnotin

/-- Witness for C8 at concrete inputs. -/
theorem area_names_unique_witness :
    ((handleAddArea { name := "Spa", category := "Wellness" }
        INITIAL_AREAS).map fun a => a.name).Nodup ∧
    (((handleEditArea "Lobby" { name := "Main Lobby", category := "Public" }
        INITIAL_AREAS []).1).map fun a => a.name).Nodup := by
  have h := area_names_unique { name := "Spa", category := "Wellness" } "Lobby"
    { name := "Main Lobby", category := "Public" } INITIAL_AREAS [] (by decide)
  exact h

/-- C1 (amended): for EVERY reference date string `R`, `daily` returns
exactly the tasks whose date string equals `R`, `monthly` is contained in
`yearly`, and `yearly` is contained in `all`.  Moreover `daily` is
contained in `weekly` for every canonical reference date whose day-of-month
exceeds its weekday index — including windows rolling into the next month
or the next year — with the single exception of the edge of the
representable range (a December window of year 9999 rolling into year
10000, where the window end sorts below every canonical date).  The
unconditional chain of the original claim is refuted by the
counterexample: a week can straddle a month boundary, so `weekly` is not
contained in `monthly`, and when the week-start computation underflows
into the previous month the reference date itself escapes its own weekly
window. -/
theorem filterTasks_period_lattice (tasks : List HousekeepingTask) (R : String) :
    filterTasks tasks .daily R = tasks.filter (fun t => t.date == R) ∧
    (∀ t ∈ filterTasks tasks .monthly R, t ∈ filterTasks tasks .yearly R) ∧
    (∀ t ∈ filterTasks tasks .yearly R, t ∈ filterTasks tasks .all R) ∧
    (∀ y m d : Nat,
      parseDate R = some ((y : Int), m, d) →
      renderDate (y : Int) m d = R →
      m ≤ 12 →
      d ≤ daysInMonth (y : Int) m →
      y ≤ 9999 →
      dayOfWeekYMD (y : Int) m d < d →
      (y = 9999 → m = 12 → d - dayOfWeekYMD (y : Int) m d + 6 ≤ 31) →
      ∀ t ∈ filterTasks tasks .daily R, t ∈ filterTasks tasks .weekly R) := by
  refine ⟨filterTasks_daily_eq tasks R, ?_, ?_, ?_⟩
  · intro t ht
    rw [filterTasks_monthly_eq] at ht
    rw [filterTasks_yearly_eq]
    obtain ⟨htm, hpred⟩ := List.mem_filter.mp ht
    refine List.mem_filter.mpr ⟨htm, ?_⟩
    cases hpR : parseDate R with
    | none =>
      rw [hpR] at hpred
      cases hpd : parseDate t.date with
      | none =>
        rw [hpd] at hpred
        simp at hpred
      | some p =>
        obtain ⟨ty, tm, td⟩ := p
        rw [hpd] at hpred
        simp at hpred
    | some q =>
      obtain ⟨ry, rm, rd⟩ := q
      rw [hpR] at hpred
      cases hpd : parseDate t.date with
      | none =>
        rw [hpd] at hpred
        simp at hpred
      | some p =>
        obtain ⟨ty, tm, td⟩ := p
        rw [hpd] at hpred
        simp at hpred ⊢
        exact hpred.2
  · intro t ht
    rw [filterTasks_yearly_eq] at ht
    rw [filterTasks_all_eq]
    exact List.mem_of_mem_filter ht
  · intro y m d hp hr hm2 hdm hy hdow hedge t ht
    rw [filterTasks_daily_eq] at ht
    obtain ⟨htm, hdate⟩ := List.mem_filter.mp ht
    have hdate2 : t.date = R := by simpa using hdate
    rw [filterTasks_weekly_eq]
    refine List.mem_filter.mpr ⟨htm, ?_⟩
    rw [hdate2]
    have hgw0 : getWeekRange R = weekRangeYMD (y : Int) m d := by
      simp only [getWeekRange, hp]
    have hd31 : d ≤ 31 := le_trans hdm (daysInMonth_le_31 _ _)
    have hdow7 : dayOfWeekYMD (y : Int) m d < 7 := dayOfWeekYMD_lt_7 _ _ _
    have hs : strLtB R (renderDate (y : Int) m (d - dayOfWeekYMD (y : Int) m d))
        = false := by
      rw [← hr]
      simp only [strLtB]
      rw [renderDate_data_day, renderDate_data_day, listLtB_append_same]
      exact pad2_not_lt2 (d - dayOfWeekYMD (y : Int) m d) d (by omega) (by omega)
    by_cases hin : d - dayOfWeekYMD (y : Int) m d + 6 ≤ daysInMonth (y : Int) m
    · have hgw : getWeekRange R =
          (renderDate (y : Int) m (d - dayOfWeekYMD (y : Int) m d),
           renderDate (y : Int) m (d - dayOfWeekYMD (y : Int) m d + 6)) := by
        rw [hgw0, weekRangeYMD_inMonth _ _ _ hdow hin]
      have h1 : (getWeekRange R).1 =
          renderDate (y : Int) m (d - dayOfWeekYMD (y : Int) m d) := by rw [hgw]
      have h2 : (getWeekRange R).2 =
          renderDate (y : Int) m (d - dayOfWeekYMD (y : Int) m d + 6) := by rw [hgw]
      have he : strLtB (renderDate (y : Int) m
          (d - dayOfWeekYMD (y : Int) m d + 6)) R = false := by
        rw [← hr]
        simp only [strLtB]
        rw [renderDate_data_day, renderDate_data_day, listLtB_append_same]
        exact pad2_not_lt2 d (d - dayOfWeekYMD (y : Int) m d + 6) (by omega) (by omega)
      rw [h1, h2, hs, he]
      rfl
    · by_cases hm12p : m = 12
      · subst hm12p
        have hd12 : daysInMonth (y : Int) 12 = 31 := rfl
        have hy9998 : y ≤ 9998 := by
          by_cases hy99 : y = 9999
          · exact absurd (hedge hy99 rfl) (by omega)
          · omega
        have hover : 31 < d - dayOfWeekYMD (y : Int) 12 d + 6 := by omega
        have hgw : getWeekRange R =
            (renderDate (y : Int) 12 (d - dayOfWeekYMD (y : Int) 12 d),
             renderDate ((y : Int) + 1) 1
               (d - dayOfWeekYMD (y : Int) 12 d + 6 - 31)) := by
          rw [hgw0, weekRangeYMD_nextYear _ _ hdow (by omega) hover]
        have h1 : (getWeekRange R).1 =
            renderDate (y : Int) 12 (d - dayOfWeekYMD (y : Int) 12 d) := by rw [hgw]
        have h2 : (getWeekRange R).2 =
            renderDate ((y : Int) + 1) 1
              (d - dayOfWeekYMD (y : Int) 12 d + 6 - 31) := by rw [hgw]
        have hcast : ((y : Int) + 1) = (((y + 1 : Nat)) : Int) := by omega
        have he : strLtB (renderDate ((y : Int) + 1) 1
            (d - dayOfWeekYMD (y : Int) 12 d + 6 - 31)) R = false := by
          rw [← hr]
          simp only [strLtB]
          rw [renderDate_data_year, renderDate_data_year]
          apply listLtB_append_of_ne
          · exact (pad4_len _).trans (pad4_len _).symm
          · rw [hcast, (pad4_lt_eq (y + 1) y (by omega) (by omega)).1]
            simp only [decide_eq_false_iff_not]
            omega
          · rw [hcast]
            intro hcontra
            have h9 := (pad4_lt_eq (y + 1) y (by omega) (by omega)).2.mp hcontra
            omega
        rw [h1, h2, hs, he]
        rfl
      have hm12 : (m == 12) = false := by
        simpa using hm12p
      have hover : daysInMonth (y : Int) m < d - dayOfWeekYMD (y : Int) m d + 6 := by
        omega
      have hgw : getWeekRange R =
          (renderDate (y : Int) m (d - dayOfWeekYMD (y : Int) m d),
           renderDate (y : Int) (m + 1)
             (d - dayOfWeekYMD (y : Int) m d + 6 - daysInMonth (y : Int) m)) := by
        rw [hgw0, weekRangeYMD_nextMonth _ _ _ hdow hdm hm12 hover]
      have h1 : (getWeekRange R).1 =
          renderDate (y : Int) m (d - dayOfWeekYMD (y : Int) m d) := by rw [hgw]
      have h2 : (getWeekRange R).2 =
          renderDate (y : Int) (m + 1)
            (d - dayOfWeekYMD (y : Int) m d + 6 - daysInMonth (y : Int) m) := by
        rw [hgw]
      have he : strLtB (renderDate (y : Int) (m + 1)
          (d - dayOfWeekYMD (y : Int) m d + 6 - daysInMonth (y : Int) m)) R
          = false := by
        rw [← hr]
        simp only [strLtB]
        rw [renderDate_data_month, renderDate_data_month, listLtB_append_same]
        apply listLtB_append_of_ne
        · exact (pad2_len2 (m + 1) (by omega)).trans (pad2_len2 m (by omega)).symm
        · exact pad2_not_lt2 m (m + 1) (by omega) (by omega)
        · exact pad2_succ_ne2 m (by omega)
      rw [h1, h2, hs, he]
      rfl

/-- Witness for the amended C1 at the concrete reference date 2024-12-30, a
Monday whose weekly window (2024-12-29 to 2025-01-04) rolls over into the
next year. -/
theorem filterTasks_period_lattice_witness :
    (∀ t ∈ filterTasks [taskOn "2024-12-30"] .daily "2024-12-30",
      t ∈ filterTasks [taskOn "2024-12-30"] .weekly "2024-12-30") ∧
    filterTasks [taskOn "2024-12-30"] .daily "2024-12-30" =
      List.filter (fun t => t.date == "2024-12-30") [taskOn "2024-12-30"] := by
  have h := filterTasks_period_lattice [taskOn "2024-12-30"] "2024-12-30"
  exact ⟨h.2.2.2 2024 12 30 (by decide) (by decide) (by decide) (by decide)
    (by decide) (by decide) (by decide), h.1⟩

end CleanTrack
